import Mathlib

/-!
# web-screen-saver.js : a shallow embedding

The script keeps its whole state in closure variables and in the browser
(document, timers, animation-frame requests).  The embedding follows the
source function by function.

Numbers.  JavaScript numbers are modelled by exact arithmetic in an ordered
field `K` (rationals for evaluation, reals for the trigonometric host
functions) extended with `NaN`, the value the source can produce when the
speed clamp divides `0 / 0`.  Rounding of IEEE doubles is not modelled: the
decimal literals `0.15`, `0.2`, `0.5` stand for the exact fractions.
-/

set_option linter.unusedSectionVars false

namespace WebScreenSaver

/-! ## Numbers -/

/-- A JavaScript number: a finite value of the field `K`, or `NaN`. -/
inductive JSNum (K : Type) where
  | fin : K → JSNum K
  | nan : JSNum K
deriving DecidableEq, Repr

namespace JSNum

variable {K : Type} [LinearOrderedField K] [FloorRing K]

/-- Addition `a + b`; `NaN` is absorbing. -/
def add : JSNum K → JSNum K → JSNum K
  | fin a, fin b => fin (a + b)
  | _, _ => nan

/-- Subtraction `a - b`; `NaN` is absorbing. -/
def sub : JSNum K → JSNum K → JSNum K
  | fin a, fin b => fin (a - b)
  | _, _ => nan

/-- Multiplication `a * b`; `NaN` is absorbing. -/
def mul : JSNum K → JSNum K → JSNum K
  | fin a, fin b => fin (a * b)
  | _, _ => nan

/-- Unary minus `-a`. -/
def neg : JSNum K → JSNum K
  | fin a => fin (-a)
  | nan => nan

/-- Division `a / b`.  `0 / 0` is `NaN`.  A non-zero dividend over a zero
divisor is an infinity in JavaScript; the model has one non-finite value and
returns it there as well (the only divisor of the program is a square root of
a sum of two squares, which is zero only when the dividend is zero too). -/
def div : JSNum K → JSNum K → JSNum K
  | fin a, fin b => if b = 0 then nan else fin (a / b)
  | _, _ => nan

/-- Rounding toward zero, the quotient used by the `%` operator. -/
def trunc (q : K) : Int := if 0 ≤ q then Int.floor q else Int.ceil q

/-- Remainder `a % b`: the result takes the sign of the dividend
(`a - b * trunc (a / b)`); `NaN` when the divisor is zero. -/
def rem : JSNum K → JSNum K → JSNum K
  | fin a, fin b => if b = 0 then nan else fin (a - b * (trunc (a / b) : K))
  | _, _ => nan

/-- Comparison `a < b`; false as soon as one side is `NaN`. -/
def lt : JSNum K → JSNum K → Bool
  | fin a, fin b => decide (a < b)
  | _, _ => false

/-- Comparison `a > b`; false as soon as one side is `NaN`. -/
def gt (a b : JSNum K) : Bool := lt b a

/-- Comparison `a <= b`; false as soon as one side is `NaN`. -/
def le : JSNum K → JSNum K → Bool
  | fin a, fin b => decide (a ≤ b)
  | _, _ => false

instance : Add (JSNum K) := ⟨add⟩
instance : Sub (JSNum K) := ⟨sub⟩
instance : Mul (JSNum K) := ⟨mul⟩
instance : Div (JSNum K) := ⟨div⟩
instance : Neg (JSNum K) := ⟨neg⟩
instance : Mod (JSNum K) := ⟨rem⟩

/-- A number literal of the source. -/
def lit (q : K) : JSNum K := fin q

end JSNum

open JSNum

/-! ## Constants of the script -/

/-- `IDLE_TIME_LIMIT = 5 * 60 * 1000` milliseconds. -/
def IDLE_TIME_LIMIT : Nat := 5 * 60 * 1000
/-- `groupCount = 3`. -/
def groupCount : Nat := 3
/-- `numPoints = 4`. -/
def numPoints : Nat := 4
/-- `ribbonWidth = 30`. -/
def ribbonWidth : Nat := 30

section Numeric

variable {K : Type} [LinearOrderedField K] [FloorRing K]

/-- `MIN_SPEED = 2.0`. -/
def MIN_SPEED : K := 2
/-- `MAX_SPEED = 5.0`. -/
def MAX_SPEED : K := 5
/-- `NOISE_SCALE = 0.15`. -/
def NOISE_SCALE : K := 15 / 100

/-- `hueStep = 360 / groupCount` (line 87). -/
def hueStep : JSNum K := lit 360 / lit (groupCount : K)

/-- `startOffset = Math.random() * 360` (line 89), `r` being the random draw. -/
def startOffset (r : K) : JSNum K := lit r * lit 360

/-- `baseHue: (startOffset + g * hueStep) % 360` (line 107). -/
def baseHueOf (r : K) (g : Nat) : JSNum K :=
  (startOffset r + lit (g : K) * hueStep) % lit 360

/-- The stroke hue of line 151:
`(group.baseHue + Date.now() / 60 - i * 2) % 360`. -/
def strokeHue (baseHue : JSNum K) (now : Nat) (i : Nat) : JSNum K :=
  (baseHue + lit (now : K) / lit 60 - lit (i : K) * lit 2) % lit 360

/-- The stroke opacity of line 150: `(1 - (i / ribbonWidth)) * 0.5`. -/
def strokeOpacity (i : Nat) : JSNum K :=
  (lit 1 - lit (i : K) / lit (ribbonWidth : K)) * lit (1 / 2)

end Numeric

/-! ## The host's `Math` object -/

/-- The members of the host's `Math` object which the script calls, as
functions on finite numbers, and the constant `Math.PI`.  `Math.random()` is
not a member here: every random draw is an explicit argument. -/
structure MathHost (K : Type) where
  /-- `Math.cos` on a finite argument. -/
  cos : K → K
  /-- `Math.sin` on a finite argument. -/
  sin : K → K
  /-- `Math.sqrt` on a finite argument that is not negative. -/
  sqrt : K → K
  /-- `Math.PI`. -/
  PI : K

section Simulation

variable {K : Type} [LinearOrderedField K] [FloorRing K]

/-- `Math.cos(a)`. -/
def MathHost.jsCos (M : MathHost K) : JSNum K → JSNum K
  | fin a => fin (M.cos a)
  | nan => nan

/-- `Math.sin(a)`. -/
def MathHost.jsSin (M : MathHost K) : JSNum K → JSNum K
  | fin a => fin (M.sin a)
  | nan => nan

/-- `Math.sqrt(a)`: `NaN` for a negative argument. -/
def MathHost.jsSqrt (M : MathHost K) : JSNum K → JSNum K
  | fin a => if a < 0 then nan else fin (M.sqrt a)
  | nan => nan

/-! ## Points and groups -/

/-- A trail entry `{x: p.x, y: p.y}` (line 142). -/
structure Pos (K : Type) where
  x : JSNum K
  y : JSNum K
deriving DecidableEq, Repr

/-- A point object, as built at lines 95-102. -/
structure Point (K : Type) where
  x : JSNum K
  y : JSNum K
  vx : JSNum K
  vy : JSNum K
  noiseAngle : JSNum K
  history : List (Pos K)
deriving DecidableEq, Repr

/-- A group object `{ points, baseHue }` (lines 105-108). -/
structure Group (K : Type) where
  points : List (Point K)
  baseHue : JSNum K
deriving DecidableEq, Repr

/-! ## `initLineGroups` (lines 84-110) -/

/-- The point pushed at lines 94-102.  The four draws are, in the order in
which the source evaluates them: `ra` for `angle`, `rx` for `x`, `ry` for `y`
and `rn` for `noiseAngle`; `vw`, `vh` are `window.innerWidth` and
`window.innerHeight`. -/
def newPoint (M : MathHost K) (ra rx ry rn : K) (vw vh : Nat) : Point K :=
  let angle : JSNum K := lit ra * lit M.PI * lit 2
  { x := lit rx * lit (vw : K)
    y := lit ry * lit (vh : K)
    vx := M.jsCos angle * lit MIN_SPEED
    vy := M.jsSin angle * lit MIN_SPEED
    noiseAngle := lit rn * lit M.PI * lit 2
    history := [] }

/-- The inner loop of lines 93-103: `n` points, the first draw being number
`k` of the stream `rnd`. -/
def newPoints (M : MathHost K) (rnd : Nat → K) (vw vh : Nat) : Nat → Nat → List (Point K)
  | _, 0 => []
  | k, n + 1 =>
    newPoint M (rnd k) (rnd (k + 1)) (rnd (k + 2)) (rnd (k + 3)) vw vh
      :: newPoints M rnd vw vh (k + 4) n

/-- The group pushed at lines 92-108 for the loop index `g`; `rnd 0` is the
draw of `startOffset`, the points of group `g` use the draws from
`1 + 4 * numPoints * g` on. -/
def newGroup (M : MathHost K) (rnd : Nat → K) (vw vh : Nat) (g : Nat) : Group K :=
  { points := newPoints M rnd vw vh (1 + 4 * numPoints * g) numPoints
    baseHue := baseHueOf (rnd 0) g }

/-- `initLineGroups()`: the new value of `lineGroups`. -/
def initLineGroups (M : MathHost K) (rnd : Nat → K) (vw vh : Nat) : List (Group K) :=
  (List.range groupCount).map (newGroup M rnd vw vh)

/-! ## `animate`: the update of one point (lines 119-143) -/

/-- Lines 119-121: the heading is perturbed by the draw `r`, the velocity is
accelerated along the new heading. -/
def turn (M : MathHost K) (r : K) (p : Point K) : Point K :=
  let noiseAngle := p.noiseAngle + (lit r - lit (5 / 10)) * lit NOISE_SCALE
  { p with
    noiseAngle := noiseAngle
    vx := p.vx + M.jsCos noiseAngle * lit (2 / 10)
    vy := p.vy + M.jsSin noiseAngle * lit (2 / 10) }

/-- Line 124: `Math.sqrt(p.vx * p.vx + p.vy * p.vy)`. -/
def speedOf (M : MathHost K) (p : Point K) : JSNum K :=
  M.jsSqrt (p.vx * p.vx + p.vy * p.vy)

/-- Lines 124-131: the speed clamp. -/
def limitSpeed (M : MathHost K) (p : Point K) : Point K :=
  let speed := speedOf M p
  if lt speed (lit MIN_SPEED) then
    { p with
      vx := (p.vx / speed) * lit MIN_SPEED
      vy := (p.vy / speed) * lit MIN_SPEED }
  else if gt speed (lit MAX_SPEED) then
    { p with
      vx := (p.vx / speed) * lit MAX_SPEED
      vy := (p.vy / speed) * lit MAX_SPEED }
  else p

/-- Lines 133-134: `p.x += p.vx; p.y += p.vy`. -/
def move (p : Point K) : Point K :=
  { p with x := p.x + p.vx, y := p.y + p.vy }

/-- Line 137: the left wall. -/
def bounceLeft (M : MathHost K) (p : Point K) : Point K :=
  if lt p.x (lit 0) then
    { p with x := lit 0, vx := p.vx * lit (-1), noiseAngle := lit M.PI - p.noiseAngle }
  else p

/-- Line 138: the right wall, at `canvas.width`. -/
def bounceRight (M : MathHost K) (cw : Nat) (p : Point K) : Point K :=
  if gt p.x (lit (cw : K)) then
    { p with x := lit (cw : K), vx := p.vx * lit (-1), noiseAngle := lit M.PI - p.noiseAngle }
  else p

/-- Line 139: the top wall. -/
def bounceTop (p : Point K) : Point K :=
  if lt p.y (lit 0) then
    { p with y := lit 0, vy := p.vy * lit (-1), noiseAngle := -p.noiseAngle }
  else p

/-- Line 140: the bottom wall, at `canvas.height`. -/
def bounceBottom (ch : Nat) (p : Point K) : Point K :=
  if gt p.y (lit (ch : K)) then
    { p with y := lit (ch : K), vy := p.vy * lit (-1), noiseAngle := -p.noiseAngle }
  else p

/-- Lines 137-140: the four wall tests, in the order of the source. -/
def bounce (M : MathHost K) (cw ch : Nat) (p : Point K) : Point K :=
  bounceBottom ch (bounceTop (bounceRight M cw (bounceLeft M p)))

/-- Lines 142-143: `unshift` the position, `pop` when the trail is longer
than `ribbonWidth`. -/
def pushHistory (p : Point K) : Point K :=
  let history := { x := p.x, y := p.y : Pos K } :: p.history
  { p with history := if history.length > ribbonWidth then history.dropLast else history }

/-- The callback of `group.points.forEach` (lines 117-144) for one point; `r`
is its draw of `Math.random()`, `cw` and `ch` are `canvas.width` and
`canvas.height`. -/
def updatePoint (M : MathHost K) (r : K) (cw ch : Nat) (p : Point K) : Point K :=
  pushHistory (bounce M cw ch (move (limitSpeed M (turn M r p))))

/-- `group.points.forEach(...)`: the points are updated in order, the first
one with draw number `k` of the frame. -/
def updatePoints (M : MathHost K) (rnd : Nat → K) (cw ch : Nat) :
    Nat → List (Point K) → List (Point K)
  | _, [] => []
  | k, p :: ps => updatePoint M (rnd k) cw ch p :: updatePoints M rnd cw ch (k + 1) ps

/-- The update half of the callback of `lineGroups.forEach` for one group. -/
def updateGroup (M : MathHost K) (rnd : Nat → K) (cw ch : Nat) (k : Nat) (g : Group K) :
    Group K :=
  { g with points := updatePoints M rnd cw ch k g.points }

/-- The update of every group in one frame; the draws of a frame are numbered
in the order in which the points are visited. -/
def updateGroups (M : MathHost K) (rnd : Nat → K) (cw ch : Nat) :
    Nat → List (Group K) → List (Group K)
  | _, [] => []
  | k, g :: gs =>
    updateGroup M rnd cw ch k g :: updateGroups M rnd cw ch (k + g.points.length) gs

/-- The groups after `n` frames: frame number `t` (from 0) draws from the
stream `rnd t` and sees the canvas size `size t`. -/
def runFrames (M : MathHost K) (rnd : Nat → Nat → K) (size : Nat → Nat × Nat) :
    Nat → List (Group K) → List (Group K)
  | 0, gs => gs
  | n + 1, gs =>
    updateGroups M (rnd n) (size n).1 (size n).2 0 (runFrames M rnd size n gs)

/-! ## `animate`: the drawing of one group (lines 147-167) -/

/-- The exception a frame can raise: a property read on `undefined`. -/
inductive JSError where
  | typeError
deriving DecidableEq, Repr

/-- One stroked curve: the trail depth, the style and the path given to the
2D context (`moveTo` the start, then one `quadraticCurveTo(control, end)` per
list entry, then `closePath`). -/
structure Stroke (K : Type) where
  depth : Nat
  opacity : JSNum K
  hue : JSNum K
  start : Pos K
  curves : List (Pos K × Pos K)
deriving DecidableEq, Repr

/-- The read `group.points[j].history[i]`: a `TypeError` when `points[j]` is
`undefined`, otherwise the entry or `undefined` (here `none`). -/
def historyAt (g : Group K) (j i : Nat) : Except JSError (Option (Pos K)) :=
  match g.points[j]? with
  | none => .error .typeError
  | some p => .ok p.history[i]?

/-- Lines 158-162, the body of the loop over `j`: the reads of `p1` and `p2`
and the arguments of `quadraticCurveTo`.  Reading `.x` of a missing entry is a
`TypeError`. -/
def curveAt (g : Group K) (i j : Nat) : Except JSError (Pos K × Pos K) := do
  let p1 ← historyAt g j i
  let p2 ← historyAt g ((j + 1) % numPoints) i
  match p1, p2 with
  | some p1, some p2 =>
    pure ({ x := p1.x, y := p1.y },
          { x := (p1.x + p2.x) / lit 2, y := (p1.y + p2.y) / lit 2 })
  | _, _ => .error .typeError

/-- Lines 148-166, the body of the loop over the depth `i`: nothing is drawn
when `group.points[0].history[i]` is missing, otherwise one closed curve
through the entries at depth `i` of the points `1 .. numPoints - 1`.  `now` is
`Date.now()`. -/
def strokeAt (g : Group K) (now : Nat) (i : Nat) : Except JSError (Option (Stroke K)) := do
  let h0 ← historyAt g 0 i
  match h0 with
  | none => pure none
  | some p0 =>
    let curves ← ((List.range (numPoints - 1)).map (· + 1)).mapM (curveAt g i)
    pure (some
      { depth := i
        opacity := strokeOpacity i
        hue := strokeHue g.baseHue now i
        start := p0
        curves := curves })

/-- Lines 147-167: the loop `for (let i = ribbonWidth - 1; i >= 0; i--)`; the
result lists the curves stroked, in drawing order. -/
def renderGroup (g : Group K) (now : Nat) : Except JSError (List (Stroke K)) := do
  let drawn ← (List.range ribbonWidth).reverse.mapM (strokeAt g now)
  pure drawn.reduceOption

/-- The drawing of all groups of one frame. -/
def renderGroups (gs : List (Group K)) (now : Nat) :
    Except JSError (List (List (Stroke K))) :=
  gs.mapM (fun g => renderGroup g now)

/-! ## The script's variables and the browser -/

/-- The canvas element created at line 51, with the two properties the script
writes and reads. -/
structure Canvas where
  id : Nat
  width : Nat
  height : Nat
deriving DecidableEq, Repr

/-- The closure variables of the script (lines 2-12) and the part of the
browser they refer to.  Elements, timer handles and animation-frame handles
are identified by numbers, `fresh` being the next unused one.
`styleElement.parentNode` is `document.head` when the element is in `head`,
and `null` otherwise; likewise for the canvas and `body`. -/
structure State (K : Type) where
  idleTimer : Option Nat
  canvas : Option Canvas
  ctx : Option Nat
  isScreensaverActive : Bool
  animationId : Option Nat
  styleElement : Option Nat
  lineGroups : List (Group K)
  /-- The children of `document.head` appended by the script. -/
  head : List Nat
  /-- The children of `document.body` appended by the script. -/
  body : List Nat
  /-- The pending timeouts `(handle, delay in ms)`; the callback is always
  `startScreensaver`. -/
  timers : List (Nat × Nat)
  /-- The pending animation-frame requests; the callback is always `animate`. -/
  frames : List Nat
  fresh : Nat

/-- The state once the script is evaluated, before `window.onload`. -/
def initial : State K :=
  { idleTimer := none
    canvas := none
    ctx := none
    isScreensaverActive := false
    animationId := none
    styleElement := none
    lineGroups := []
    head := []
    body := []
    timers := []
    frames := []
    fresh := 0 }

/-- `handleResize()` (lines 27-32); `vw`, `vh` are `window.innerWidth` and
`window.innerHeight`. -/
def handleResize (vw vh : Nat) (s : State K) : State K :=
  if s.isScreensaverActive then
    match s.canvas with
    | some c => { s with canvas := some { c with width := vw, height := vh } }
    | none => s
  else s

/-- `cancelAnimationFrame(animationId)` (line 71); nothing happens for
`undefined` or for a handle that is not pending. -/
def cancelFrame (s : State K) : State K :=
  match s.animationId with
  | some h => { s with frames := s.frames.filter (· ≠ h) }
  | none => s

/-- Lines 74-76: the style element is removed when it exists and has a
parent. -/
def removeStyle (s : State K) : State K :=
  match s.styleElement with
  | some e => if e ∈ s.head then { s with head := s.head.filter (· ≠ e) } else s
  | none => s

/-- Lines 79-81: the canvas is removed when it exists and has a parent. -/
def removeCanvas (s : State K) : State K :=
  match s.canvas with
  | some c => if c.id ∈ s.body then { s with body := s.body.filter (· ≠ c.id) } else s
  | none => s

/-- `stopScreensaver()` (lines 69-82). -/
def stopScreensaver (s : State K) : State K :=
  removeCanvas (removeStyle (cancelFrame { s with isScreensaverActive := false }))

/-- `clearTimeout(idleTimer)` (line 36). -/
def clearIdleTimer (s : State K) : State K :=
  match s.idleTimer with
  | some h => { s with timers := s.timers.filter (fun t => t.1 ≠ h) }
  | none => s

/-- `idleTimer = setTimeout(startScreensaver, IDLE_TIME_LIMIT)` (line 37). -/
def setIdleTimer (s : State K) : State K :=
  { s with
    idleTimer := some s.fresh
    timers := s.timers ++ [(s.fresh, IDLE_TIME_LIMIT)]
    fresh := s.fresh + 1 }

/-- `resetTimer()` (lines 34-38). -/
def resetTimer (s : State K) : State K :=
  setIdleTimer (clearIdleTimer (if s.isScreensaverActive then stopScreensaver s else s))

/-- `init()` (lines 19-25): the listeners it registers are the events of
`Event` below. -/
def init (s : State K) : State K := resetTimer s

/-- `animate()` (lines 112-171); `rnd` is the stream of draws of the frame and
`now` is `Date.now()`.  The curves go to the canvas bitmap, which is not part
of the state. -/
def animate (M : MathHost K) (rnd : Nat → K) (now : Nat) (s : State K) :
    Except JSError (State K) :=
  if !s.isScreensaverActive then pure s
  else
    match s.ctx, s.canvas with
    | some _, some c => do
      let groups := updateGroups M rnd c.width c.height 0 s.lineGroups
      let _ ← renderGroups groups now
      pure
        { s with
          lineGroups := groups
          animationId := some s.fresh
          frames := s.frames ++ [s.fresh]
          fresh := s.fresh + 1 }
    | _, _ => .error .typeError

/-- `startScreensaver()` (lines 40-67); `rndInit` holds the draws of
`initLineGroups`, `rndFrame` and `now` are those of the first frame, `vw` and
`vh` are `window.innerWidth` and `window.innerHeight`. -/
def startScreensaver (M : MathHost K) (rndInit rndFrame : Nat → K) (now vw vh : Nat)
    (s : State K) : Except JSError (State K) :=
  let style := s.fresh
  let cv := s.fresh + 1
  animate M rndFrame now
    { s with
      isScreensaverActive := true
      styleElement := some style
      head := s.head ++ [style]
      canvas := some { id := cv, width := vw, height := vh }
      body := s.body ++ [cv]
      ctx := some cv
      lineGroups := initLineGroups M rndInit vw vh
      fresh := s.fresh + 2 }

/-! ## Events -/

/-- What the browser can deliver to the script. -/
inductive Event (K : Type) where
  /-- One of `mousemove`, `mousedown`, `keydown`, `scroll`, `touchstart`:
  the listener is `resetTimer`. -/
  | activity
  /-- The timeout with handle `h` elapses: `startScreensaver` runs. -/
  | timeout (h : Nat) (rndInit rndFrame : Nat → K) (now vw vh : Nat)
  /-- The window is resized to `vw` by `vh`: `handleResize` runs. -/
  | resize (vw vh : Nat)
  /-- The animation-frame request with handle `h` is served: `animate` runs. -/
  | frame (h : Nat) (rnd : Nat → K) (now : Nat)

/-- The effect of an event: a served handle is no longer pending, then the
listener runs. -/
def fire (M : MathHost K) : Event K → State K → Except JSError (State K)
  | .activity, s => pure (resetTimer s)
  | .timeout h rndInit rndFrame now vw vh, s =>
    startScreensaver M rndInit rndFrame now vw vh
      { s with timers := s.timers.filter (fun t => t.1 ≠ h) }
  | .resize vw vh, s => pure (handleResize vw vh s)
  | .frame h rnd now, s =>
    animate M rnd now { s with frames := s.frames.filter (· ≠ h) }

/-- The browser delivers a timeout or a frame only for a pending handle. -/
def enabled : Event K → State K → Bool
  | .activity, _ => true
  | .timeout h _ _ _ _ _, s => decide (h ∈ s.timers.map Prod.fst)
  | .resize _ _, _ => true
  | .frame h _ _, s => decide (h ∈ s.frames)

/-- The states reached from `initial` when the four listeners are called in
any order and any number of times, whether or not a handle is pending. -/
inductive Called (M : MathHost K) : State K → Prop where
  | initial : Called M initial
  | step {s s' : State K} (e : Event K) :
      Called M s → fire M e s = .ok s' → Called M s'

/-- The states the browser can reach from `initial`: as `Called`, every event
being enabled when it is delivered.  `init` is the step `activity`. -/
inductive Reachable (M : MathHost K) : State K → Prop where
  | initial : Reachable M initial
  | step {s s' : State K} (e : Event K) :
      Reachable M s → enabled e s = true → fire M e s = .ok s' → Reachable M s'

/-! ## Predicates used in the statements -/

/-- The group has `numPoints` points and the trail of each of them has `L`
entries. -/
def Uniform (L : Nat) (g : Group K) : Prop :=
  g.points.length = numPoints ∧ ∀ p ∈ g.points, p.history.length = L

/-- The frame strokes a curve of the group at depth `i`. -/
def drawsDepth (g : Group K) (now i : Nat) : Prop :=
  ∃ st : Stroke K, strokeAt g now i = .ok (some st)

/-- What `animate` relies on: the groups are there once `startScreensaver`
has run, the canvas and its context exist while the screensaver is active, and
every group is uniform. -/
def Ready (s : State K) : Prop :=
  (s.styleElement = none → s.isScreensaverActive = false ∧ s.lineGroups = []) ∧
  (s.styleElement ≠ none → s.lineGroups.length = groupCount) ∧
  (s.isScreensaverActive = true → s.canvas ≠ none ∧ s.ctx ≠ none) ∧
  (∀ g ∈ s.lineGroups, ∃ L, L ≤ ribbonWidth ∧ Uniform L g)

/-- The browser side of a state: at most one timeout is pending and it is the
one `idleTimer` names; nothing of the script is in the document and no frame
is requested while the screensaver is inactive; while it is active the
document holds exactly the style element and the canvas of the variables, and
exactly the frame request `animationId` is pending. -/
def Settled (s : State K) : Prop :=
  (s.timers = [] ∨ ∃ h, s.idleTimer = some h ∧ s.timers = [(h, IDLE_TIME_LIMIT)]) ∧
  (s.isScreensaverActive = false → s.head = [] ∧ s.body = [] ∧ s.frames = []) ∧
  (s.isScreensaverActive = true →
    ∃ (e : Nat) (c : Canvas) (a : Nat),
      s.styleElement = some e ∧ s.head = [e] ∧ s.canvas = some c ∧ s.body = [c.id] ∧
      s.animationId = some a ∧ s.frames = [a])

/-- A settled state in which no timeout is pending while the screensaver is
active. -/
def Tidy (s : State K) : Prop :=
  Settled s ∧ (s.isScreensaverActive = true → s.timers = [])

/-- The listeners run one after the other on the events of the list. -/
def runEvents (M : MathHost K) : List (Event K) → State K → Except JSError (State K)
  | [], s => pure s
  | e :: es, s => do
    let s' ← fire M e s
    runEvents M es s'

end Simulation

/-! # Theorems -/

namespace JSNum

variable {K : Type} [LinearOrderedField K] [FloorRing K]

@[simp] theorem fin_rem (a b : K) :
    (fin a % fin b : JSNum K) = if b = 0 then nan else fin (a - b * (trunc (a / b) : K)) := rfl
@[simp] theorem nan_add (a : JSNum K) : (nan + a : JSNum K) = nan := rfl
@[simp] theorem add_nan (a : JSNum K) : (a + nan : JSNum K) = nan := by cases a <;> rfl
@[simp] theorem nan_mul (a : JSNum K) : (nan * a : JSNum K) = nan := rfl
@[simp] theorem mul_nan (a : JSNum K) : (a * nan : JSNum K) = nan := by cases a <;> rfl
@[simp] theorem nan_div (a : JSNum K) : (nan / a : JSNum K) = nan := rfl
@[simp] theorem div_nan (a : JSNum K) : (a / nan : JSNum K) = nan := by cases a <;> rfl
@[simp] theorem nan_lt (a : JSNum K) : lt (nan : JSNum K) a = false := rfl
@[simp] theorem lt_nan (a : JSNum K) : lt a (nan : JSNum K) = false := by cases a <;> rfl
@[simp] theorem nan_gt (a : JSNum K) : gt (nan : JSNum K) a = false := by cases a <;> rfl
@[simp] theorem gt_nan (a : JSNum K) : gt a (nan : JSNum K) = false := rfl
@[simp] theorem nan_le (a : JSNum K) : le (nan : JSNum K) a = false := rfl
@[simp] theorem le_nan (a : JSNum K) : le a (nan : JSNum K) = false := by cases a <;> rfl
end JSNum

section Hues

variable {K : Type} [LinearOrderedField K] [FloorRing K]

end Hues

section Frames

variable {K : Type} [LinearOrderedField K] [FloorRing K]

@[simp] theorem turn_history (M : MathHost K) (r : K) (p : Point K) :
    (turn M r p).history = p.history := rfl

@[simp] theorem limitSpeed_history (M : MathHost K) (p : Point K) :
    (limitSpeed M p).history = p.history := by
  simp only [limitSpeed]
  split_ifs <;> rfl

@[simp] theorem move_history (p : Point K) : (move p).history = p.history := rfl

@[simp] theorem bounce_history (M : MathHost K) (cw ch : Nat) (p : Point K) :
    (bounce M cw ch p).history = p.history := by
  unfold bounce bounceBottom bounceTop bounceRight bounceLeft
  split_ifs <;> rfl

/-- The trail after one update: the new position in front of the old trail,
cut to `ribbonWidth` entries. -/
theorem updatePoint_history (M : MathHost K) (r : K) (cw ch : Nat) (p : Point K) :
    (updatePoint M r cw ch p).history
      = (({ x := (updatePoint M r cw ch p).x, y := (updatePoint M r cw ch p).y } : Pos K)
          :: p.history).take
            (if p.history.length + 1 > ribbonWidth then p.history.length
             else p.history.length + 1) := by
  simp only [updatePoint, pushHistory, List.length_cons, bounce_history, move_history,
    limitSpeed_history, turn_history]
  split_ifs with h
  · rw [List.dropLast_eq_take]
    simp
  · simp

/-- The length of the trail after one update. -/
theorem updatePoint_history_length (M : MathHost K) (r : K) (cw ch : Nat) (p : Point K)
    (hp : p.history.length ≤ ribbonWidth) :
    (updatePoint M r cw ch p).history.length = min (p.history.length + 1) ribbonWidth := by
  rw [updatePoint_history]
  simp only [List.length_take, List.length_cons]
  split_ifs with h <;> omega

@[simp] theorem updatePoints_length (M : MathHost K) (rnd : Nat → K) (cw ch : Nat) (k : Nat)
    (ps : List (Point K)) : (updatePoints M rnd cw ch k ps).length = ps.length := by
  induction ps generalizing k with
  | nil => rfl
  | cons p ps ih => simp [updatePoints, ih]

@[simp] theorem updateGroups_length (M : MathHost K) (rnd : Nat → K) (cw ch : Nat) (k : Nat)
    (gs : List (Group K)) : (updateGroups M rnd cw ch k gs).length = gs.length := by
  induction gs generalizing k with
  | nil => rfl
  | cons g gs ih => simp [updateGroups, ih]

/-- Every updated point is the update, with some draw, of a point of the list. -/
theorem mem_updatePoints {M : MathHost K} {rnd : Nat → K} {cw ch k : Nat}
    {ps : List (Point K)} {q : Point K} (hq : q ∈ updatePoints M rnd cw ch k ps) :
    ∃ p ∈ ps, ∃ r, q = updatePoint M r cw ch p := by
  induction ps generalizing k with
  | nil => simp [updatePoints] at hq
  | cons p ps ih =>
    simp only [updatePoints, List.mem_cons] at hq
    rcases hq with rfl | hq
    · exact ⟨p, List.mem_cons_self _ _, rnd k, rfl⟩
    · obtain ⟨p', hp', r, hr⟩ := ih hq
      exact ⟨p', List.mem_cons_of_mem _ hp', r, hr⟩

/-- Every updated group is the update, from some draw number on, of a group
of the list. -/
theorem mem_updateGroups {M : MathHost K} {rnd : Nat → K} {cw ch k : Nat}
    {gs : List (Group K)} {g' : Group K} (hg : g' ∈ updateGroups M rnd cw ch k gs) :
    ∃ g ∈ gs, ∃ k', g' = updateGroup M rnd cw ch k' g := by
  induction gs generalizing k with
  | nil => simp [updateGroups] at hg
  | cons g gs ih =>
    simp only [updateGroups, List.mem_cons] at hg
    rcases hg with rfl | hg
    · exact ⟨g, List.mem_cons_self _ _, k, rfl⟩
    · obtain ⟨g₀, hg₀, k', hk'⟩ := ih hg
      exact ⟨g₀, List.mem_cons_of_mem _ hg₀, k', hk'⟩

/-- A property of groups carried by the update of one group is carried by a
whole frame. -/
theorem updateGroups_forall {M : MathHost K} {rnd : Nat → K} {cw ch k : Nat}
    {gs : List (Group K)} {P Q : Group K → Prop}
    (hstep : ∀ g k', P g → Q (updateGroup M rnd cw ch k' g))
    (hgs : ∀ g ∈ gs, P g) : ∀ g ∈ updateGroups M rnd cw ch k gs, Q g := by
  intro g' hg'
  obtain ⟨g, hg, k', rfl⟩ := mem_updateGroups hg'
  exact hstep g k' (hgs g hg)

/-- A property of points carried by the update of one point is carried by the
update of a group. -/
theorem updateGroup_forall {M : MathHost K} {rnd : Nat → K} {cw ch k : Nat}
    {g : Group K} {P Q : Point K → Prop}
    (hstep : ∀ p r, P p → Q (updatePoint M r cw ch p))
    (hg : ∀ p ∈ g.points, P p) : ∀ p ∈ (updateGroup M rnd cw ch k g).points, Q p := by
  intro q hq
  obtain ⟨p, hp, r, rfl⟩ := mem_updatePoints hq
  exact hstep p r (hg p hp)

@[simp] theorem newPoints_length (M : MathHost K) (rnd : Nat → K) (vw vh k n : Nat) :
    (newPoints M rnd vw vh k n).length = n := by
  induction n generalizing k with
  | zero => rfl
  | succ n ih => simp [newPoints, ih]

/-- Every point built by `initLineGroups` is `newPoint` at some four draws. -/
theorem mem_newPoints {M : MathHost K} {rnd : Nat → K} {vw vh k n : Nat} {p : Point K}
    (hp : p ∈ newPoints M rnd vw vh k n) :
    ∃ ra rx ry rn, p = newPoint M ra rx ry rn vw vh := by
  induction n generalizing k with
  | zero => simp [newPoints] at hp
  | succ n ih =>
    simp only [newPoints, List.mem_cons] at hp
    rcases hp with rfl | hp
    · exact ⟨_, _, _, _, rfl⟩
    · exact ih hp

@[simp] theorem initLineGroups_length (M : MathHost K) (rnd : Nat → K) (vw vh : Nat) :
    (initLineGroups M rnd vw vh).length = groupCount := by
  simp [initLineGroups]

/-- Every group built by `initLineGroups` is `newGroup` at some index below
`groupCount`. -/
theorem mem_initLineGroups {M : MathHost K} {rnd : Nat → K} {vw vh : Nat} {g : Group K}
    (hg : g ∈ initLineGroups M rnd vw vh) :
    ∃ i < groupCount, g = newGroup M rnd vw vh i := by
  simp only [initLineGroups, List.mem_map, List.mem_range] at hg
  obtain ⟨i, hi, rfl⟩ := hg
  exact ⟨i, hi, rfl⟩

@[simp] theorem runFrames_length (M : MathHost K) (rnd : Nat → Nat → K)
    (size : Nat → Nat × Nat) (n : Nat) (gs : List (Group K)) :
    (runFrames M rnd size n gs).length = gs.length := by
  induction n with
  | zero => rfl
  | succ n ih => simp [runFrames, ih]

/-- An invariant of groups: it holds after any number of frames when it holds
at the start and one group update carries it. -/
theorem runFrames_forall {M : MathHost K} {rnd : Nat → Nat → K} {size : Nat → Nat × Nat}
    {gs : List (Group K)} {P : Nat → Group K → Prop}
    (hstep : ∀ n g r cw ch k, P n g → P (n + 1) (updateGroup M r cw ch k g))
    (hgs : ∀ g ∈ gs, P 0 g) (n : Nat) : ∀ g ∈ runFrames M rnd size n gs, P n g := by
  induction n with
  | zero => exact hgs
  | succ n ih =>
    exact updateGroups_forall (fun g k' hg => hstep n g _ _ _ k' hg) ih

/-- C3: from the empty trails of `initLineGroups`, after `n` frames (whatever
the draws and the canvas sizes) there are still `groupCount` groups of
`numPoints` points, and the trail of every point has exactly
`min n ribbonWidth` entries: never more than `ribbonWidth`, and exactly
`ribbonWidth` from frame 30 on. -/
theorem history_length_after_frames (M : MathHost K) (rnd0 : Nat → K) (vw vh : Nat)
    (rnd : Nat → Nat → K) (size : Nat → Nat × Nat) (n : Nat) :
    (runFrames M rnd size n (initLineGroups M rnd0 vw vh)).length = groupCount ∧
    ∀ g ∈ runFrames M rnd size n (initLineGroups M rnd0 vw vh),
      g.points.length = numPoints ∧
      ∀ p ∈ g.points,
        p.history.length = min n ribbonWidth ∧
        p.history.length ≤ ribbonWidth ∧
        (ribbonWidth ≤ n → p.history.length = ribbonWidth) := by
  refine ⟨by simp, ?_⟩
  have main : ∀ g ∈ runFrames M rnd size n (initLineGroups M rnd0 vw vh),
      g.points.length = numPoints ∧ ∀ p ∈ g.points, p.history.length = min n ribbonWidth := by
    refine runFrames_forall
      (P := fun n g => g.points.length = numPoints ∧
        ∀ p ∈ g.points, p.history.length = min n ribbonWidth) ?_ ?_ n
    · rintro m g r cw ch k ⟨hlen, hps⟩
      refine ⟨by simpa [updateGroup] using hlen, ?_⟩
      refine updateGroup_forall (P := fun p => p.history.length = min m ribbonWidth) ?_ hps
      intro p r' hp
      rw [updatePoint_history_length M r' cw ch p (by rw [hp]; exact min_le_right _ _), hp]
      simp only [ribbonWidth]
      omega
    · intro g hg
      obtain ⟨i, -, rfl⟩ := mem_initLineGroups hg
      refine ⟨by simp [newGroup], ?_⟩
      intro p hp
      obtain ⟨ra, rx, ry, rn, rfl⟩ := mem_newPoints hp
      simp [newPoint]
  intro g hg
  obtain ⟨hlen, hps⟩ := main g hg
  refine ⟨hlen, fun p hp => ?_⟩
  have h := hps p hp
  refine ⟨h, by rw [h]; exact min_le_right _ _, fun hn => by rw [h]; exact min_eq_right hn⟩

end Frames

section Speed

variable {K : Type} [LinearOrderedField K] [FloorRing K]

/-- The numeric fields of a point after the trail update are those before it. -/
theorem pushHistory_fields (p : Point K) :
    (pushHistory p).x = p.x ∧ (pushHistory p).y = p.y ∧ (pushHistory p).vx = p.vx ∧
    (pushHistory p).vy = p.vy ∧ (pushHistory p).noiseAngle = p.noiseAngle :=
  ⟨rfl, rfl, rfl, rfl, rfl⟩

end Speed

section Drawing

variable {K : Type} [LinearOrderedField K] [FloorRing K]

/-- A loop body that succeeds on every element makes `mapM` succeed, with
results related elementwise to the inputs. -/
theorem mapM_ok_forall₂ {ε α β : Type} (f : α → Except ε β) (R : α → β → Prop) (l : List α)
    (h : ∀ a ∈ l, ∃ b, f a = .ok b ∧ R a b) :
    ∃ bs, l.mapM f = .ok bs ∧ List.Forall₂ R l bs := by
  induction l with
  | nil => exact ⟨[], rfl, List.Forall₂.nil⟩
  | cons a l ih =>
    obtain ⟨b, hb, hR⟩ := h a (List.mem_cons_self _ _)
    obtain ⟨bs, hbs, hF⟩ := ih (fun x hx => h x (List.mem_cons_of_mem _ hx))
    refine ⟨b :: bs, ?_, List.Forall₂.cons hR hF⟩
    rw [List.mapM_cons, hb, hbs]
    rfl

/-- The indices below `n` that are below `L`. -/
theorem range_filter_lt (n L : Nat) :
    (List.range n).filter (fun i => decide (i < L)) = List.range (min L n) := by
  induction n with
  | zero => simp
  | succ n ih =>
    rw [List.range_succ, List.filter_append, ih]
    by_cases h : n < L
    · have h1 : min L (n + 1) = min L n + 1 := by omega
      have h2 : min L n = n := by omega
      rw [h1, List.range_succ]
      simp [h, h2]
    · have h1 : min L (n + 1) = min L n := by omega
      rw [h1]
      simp [h]

/-- In a uniform group the read `group.points[j].history[i]` succeeds for
every `j < numPoints`, and finds an entry exactly when `i < L`. -/
theorem historyAt_uniform {L : Nat} {g : Group K} (hg : Uniform L g) {j : Nat}
    (hj : j < numPoints) (i : Nat) :
    ∃ o : Option (Pos K), historyAt g j i = .ok o ∧ (o.isSome ↔ i < L) := by
  have hlt : j < g.points.length := by rw [hg.1]; exact hj
  have hmem : g.points[j] ∈ g.points := List.getElem_mem hlt
  refine ⟨(g.points[j]).history[i]?, ?_, ?_⟩
  · simp only [historyAt, List.getElem?_eq_getElem hlt]
  · rw [← hg.2 _ hmem]
    by_cases hi : i < (g.points[j]).history.length
    · simp [List.getElem?_eq_getElem hi, hi]
    · simp [List.getElem?_eq_none (not_lt.mp hi), hi]

/-- In a uniform group the body of the loop over `j` succeeds at every depth
below `L`. -/
theorem curveAt_uniform {L : Nat} {g : Group K} (hg : Uniform L g) {i j : Nat}
    (hi : i < L) (hj : j < numPoints) :
    ∃ c : Pos K × Pos K, curveAt g i j = .ok c := by
  obtain ⟨o1, h1, ho1⟩ := historyAt_uniform hg hj i
  obtain ⟨o2, h2, ho2⟩ := historyAt_uniform hg (Nat.mod_lt (j + 1) (by decide : numPoints > 0)) i
  obtain ⟨p1, rfl⟩ := Option.isSome_iff_exists.mp (ho1.mpr hi)
  obtain ⟨p2, rfl⟩ := Option.isSome_iff_exists.mp (ho2.mpr hi)
  refine ⟨({ x := p1.x, y := p1.y },
    { x := (p1.x + p2.x) / lit 2, y := (p1.y + p2.y) / lit 2 }), ?_⟩
  simp only [curveAt, h1, h2]
  rfl

/-- In a uniform group the body of the loop over the depth never fails: it
strokes a curve at depth `i` when `i < L` and skips the depth otherwise. -/
theorem strokeAt_uniform {L : Nat} {g : Group K} (hg : Uniform L g) (now i : Nat) :
    ∃ o : Option (Stroke K), strokeAt g now i = .ok o ∧
      (i < L → ∃ st, o = some st ∧ st.depth = i) ∧ (¬ i < L → o = none) := by
  obtain ⟨o0, h0, ho0⟩ := historyAt_uniform hg (by decide : 0 < numPoints) i
  by_cases hi : i < L
  · obtain ⟨p0, rfl⟩ := Option.isSome_iff_exists.mp (ho0.mpr hi)
    obtain ⟨cs, hcs, -⟩ := mapM_ok_forall₂ (curveAt g i) (fun _ _ => True)
      ((List.range (numPoints - 1)).map (· + 1)) (by
        intro j hj
        simp only [List.mem_map, List.mem_range] at hj
        obtain ⟨j', hj', rfl⟩ := hj
        obtain ⟨c, hc⟩ := curveAt_uniform hg hi (j := j' + 1) (by
          have : j' < numPoints - 1 := hj'
          simp only [numPoints] at this ⊢
          omega)
        exact ⟨c, hc, trivial⟩)
    refine ⟨some
      { depth := i
        opacity := strokeOpacity i
        hue := strokeHue g.baseHue now i
        start := p0
        curves := cs }, ?_, fun _ => ⟨_, rfl, rfl⟩, fun h => absurd hi h⟩
    simp only [strokeAt, h0, hcs]
    rfl
  · have hnone : o0 = none := by
      cases o0 with
      | none => rfl
      | some e => exact absurd (ho0.mp rfl) hi
    subst hnone
    refine ⟨none, ?_, fun h => absurd h hi, fun _ => rfl⟩
    simp only [strokeAt, h0]
    rfl

/-- The depths of the curves kept by `reduceOption`, when the entry at index
`i` is a stroke of depth `i` for `i < L` and is missing otherwise. -/
theorem depths_of_forall₂ {L : Nat} {l : List Nat} {os : List (Option (Stroke K))}
    (h : List.Forall₂
      (fun i o => (i < L → ∃ st : Stroke K, o = some st ∧ st.depth = i) ∧ (¬ i < L → o = none))
      l os) :
    os.reduceOption.map (fun st => st.depth) = l.filter (fun i => decide (i < L)) := by
  induction h with
  | nil => rfl
  | @cons i o l' os' hR _ ih =>
    by_cases hi : i < L
    · obtain ⟨st, rfl, hd⟩ := hR.1 hi
      rw [List.reduceOption_cons_of_some, List.map_cons, ih, hd, List.filter_cons_of_pos]
      simpa using hi
    · rw [hR.2 hi, List.reduceOption_cons_of_none, ih, List.filter_cons_of_neg]
      simpa using hi

/-- The drawing of a uniform group never fails, and strokes exactly the
depths below `min L ribbonWidth`, the deepest first. -/
theorem renderGroup_uniform {L : Nat} {g : Group K} (hg : Uniform L g) (now : Nat) :
    ∃ strokes : List (Stroke K), renderGroup g now = .ok strokes ∧
      strokes.map (fun st => st.depth) = (List.range (min L ribbonWidth)).reverse := by
  obtain ⟨os, hos, hF⟩ := mapM_ok_forall₂ (strokeAt g now)
    (fun i o => (i < L → ∃ st : Stroke K, o = some st ∧ st.depth = i) ∧ (¬ i < L → o = none))
    (List.range ribbonWidth).reverse (fun i _ => by
      obtain ⟨o, ho, h1, h2⟩ := strokeAt_uniform hg now i
      exact ⟨o, ho, h1, h2⟩)
  refine ⟨os.reduceOption, ?_, ?_⟩
  · simp only [renderGroup, hos]
    rfl
  · rw [depths_of_forall₂ hF, List.filter_reverse, range_filter_lt]

/-- The drawing of a list of uniform groups never fails. -/
theorem renderGroups_uniform {gs : List (Group K)} (hgs : ∀ g ∈ gs, ∃ L, Uniform L g)
    (now : Nat) : ∃ out, renderGroups gs now = .ok out := by
  obtain ⟨out, hout, -⟩ := mapM_ok_forall₂ (fun g => renderGroup g now) (fun _ _ => True) gs
    (fun g hg => by
      obtain ⟨L, hL⟩ := hgs g hg
      obtain ⟨st, hst, -⟩ := renderGroup_uniform hL now
      exact ⟨st, hst, trivial⟩)
  exact ⟨out, hout⟩

/-- One update of a uniform group whose trails are not longer than
`ribbonWidth` gives a uniform group. -/
theorem updateGroup_uniform (M : MathHost K) (rnd : Nat → K) (cw ch k : Nat) {L : Nat}
    {g : Group K} (hg : Uniform L g) (hL : L ≤ ribbonWidth) :
    Uniform (min (L + 1) ribbonWidth) (updateGroup M rnd cw ch k g) := by
  refine ⟨by simpa [updateGroup] using hg.1, ?_⟩
  refine updateGroup_forall (P := fun p => p.history.length = L) ?_ hg.2
  intro p r hp
  rw [updatePoint_history_length M r cw ch p (by rw [hp]; exact hL), hp]

/-- The groups built by `initLineGroups` are uniform, with empty trails. -/
theorem initLineGroups_uniform (M : MathHost K) (rnd : Nat → K) (vw vh : Nat) :
    ∀ g ∈ initLineGroups M rnd vw vh, Uniform 0 g := by
  intro g hg
  obtain ⟨i, -, rfl⟩ := mem_initLineGroups hg
  refine ⟨by simp [newGroup], ?_⟩
  intro p hp
  obtain ⟨ra, rx, ry, rn, rfl⟩ := mem_newPoints hp
  simp [newPoint]

/-- After `n` frames from `initLineGroups` every group is uniform with trails
of `min n ribbonWidth` entries. -/
theorem runFrames_uniform (M : MathHost K) (rnd0 : Nat → K) (vw vh : Nat)
    (rnd : Nat → Nat → K) (size : Nat → Nat × Nat) (n : Nat) :
    ∀ g ∈ runFrames M rnd size n (initLineGroups M rnd0 vw vh),
      Uniform (min n ribbonWidth) g := by
  refine runFrames_forall (P := fun n g => Uniform (min n ribbonWidth) g) ?_ ?_ n
  · intro m g r cw ch k hg
    have h := updateGroup_uniform M r cw ch k hg (min_le_right _ _)
    have e : min (min m ribbonWidth + 1) ribbonWidth = min (m + 1) ribbonWidth := by
      simp only [ribbonWidth]
      omega
    rw [e] at h
    exact h
  · intro g hg
    exact initLineGroups_uniform M rnd0 vw vh g hg

/-- C10: in every state reached from `initLineGroups` by `n` frames, all the
points of a group have trails of equal length; for every depth
`i < ribbonWidth` the frame strokes a curve at depth `i` if and only if every
point of the group has a trail entry at depth `i`; the drawing never fails,
that is never reads a field of a missing trail entry; the depths stroked are
exactly `min n ribbonWidth - 1, ..., 0`; and some depth is skipped exactly
when `n < ribbonWidth`, that is in the first 29 frames. -/
theorem drawing_depths_after_frames (M : MathHost K) (rnd0 : Nat → K) (vw vh : Nat)
    (rnd : Nat → Nat → K) (size : Nat → Nat × Nat) (n now : Nat) :
    ∀ g ∈ runFrames M rnd size n (initLineGroups M rnd0 vw vh),
      (∀ p ∈ g.points, ∀ q ∈ g.points, p.history.length = q.history.length) ∧
      (∀ i < ribbonWidth,
        (drawsDepth g now i ↔ ∀ p ∈ g.points, (p.history[i]?).isSome) ∧
        strokeAt g now i ≠ .error .typeError) ∧
      ∃ strokes : List (Stroke K), renderGroup g now = .ok strokes ∧
        strokes.map (fun st => st.depth) = (List.range (min n ribbonWidth)).reverse ∧
        (strokes.length < ribbonWidth ↔ n < ribbonWidth) := by
  intro g hg
  have hu := runFrames_uniform M rnd0 vw vh rnd size n g hg
  refine ⟨fun p hp q hq => by rw [hu.2 p hp, hu.2 q hq], ?_, ?_⟩
  · intro i _
    obtain ⟨o, ho, h1, h2⟩ := strokeAt_uniform hu now i
    refine ⟨?_, by rw [ho]; exact fun h => by cases h⟩
    have hentry : ∀ p ∈ g.points, ((p.history[i]?).isSome ↔ i < min n ribbonWidth) := by
      intro p hp
      rw [← hu.2 p hp]
      by_cases hi : i < p.history.length
      · simp [List.getElem?_eq_getElem hi, hi]
      · simp [List.getElem?_eq_none (not_lt.mp hi), hi]
    constructor
    · rintro ⟨st, hst⟩ p hp
      rw [hentry p hp]
      by_contra hi
      rw [ho, h2 hi] at hst
      cases hst
    · intro hall
      have hne : g.points ≠ [] := by
        intro hnil
        have := hu.1
        rw [hnil] at this
        cases this
      obtain ⟨p, hp⟩ := List.exists_mem_of_ne_nil _ hne
      obtain ⟨st, hst, -⟩ := h1 ((hentry p hp).mp (hall p hp))
      exact ⟨st, by rw [ho, hst]⟩
  · obtain ⟨strokes, hok, hdepths⟩ := renderGroup_uniform hu now
    rw [min_assoc, min_self] at hdepths
    refine ⟨strokes, hok, hdepths, ?_⟩
    have hlen : strokes.length = min n ribbonWidth := by
      have := congrArg List.length hdepths
      simpa using this
    rw [hlen]
    simp only [ribbonWidth]
    omega

/-- Witness of C10: the first group after the first frame, real host, every
draw `1/2`, an 800 by 600 canvas; only depth 0 is stroked. -/
theorem drawing_depths_after_frames_witness :
    updateGroup (⟨Real.cos, Real.sin, Real.sqrt, Real.pi⟩ : MathHost ℝ) (fun _ => 1 / 2) 800 600 0
        (newGroup ⟨Real.cos, Real.sin, Real.sqrt, Real.pi⟩ (fun _ => 1 / 2) 800 600 0)
      ∈ runFrames (⟨Real.cos, Real.sin, Real.sqrt, Real.pi⟩ : MathHost ℝ)
          (fun _ _ => 1 / 2) (fun _ => (800, 600)) 1
          (initLineGroups ⟨Real.cos, Real.sin, Real.sqrt, Real.pi⟩ (fun _ => 1 / 2) 800 600) ∧
    ∃ strokes : List (Stroke ℝ),
      renderGroup
        (updateGroup (⟨Real.cos, Real.sin, Real.sqrt, Real.pi⟩ : MathHost ℝ) (fun _ => 1 / 2)
          800 600 0
          (newGroup ⟨Real.cos, Real.sin, Real.sqrt, Real.pi⟩ (fun _ => 1 / 2) 800 600 0)) 0
        = .ok strokes ∧
      strokes.map (fun st => st.depth) = [0] :=
  have hmem :
      updateGroup (⟨Real.cos, Real.sin, Real.sqrt, Real.pi⟩ : MathHost ℝ) (fun _ => 1 / 2)
          800 600 0
          (newGroup ⟨Real.cos, Real.sin, Real.sqrt, Real.pi⟩ (fun _ => 1 / 2) 800 600 0)
        ∈ runFrames (⟨Real.cos, Real.sin, Real.sqrt, Real.pi⟩ : MathHost ℝ)
            (fun _ _ => 1 / 2) (fun _ => (800, 600)) 1
            (initLineGroups ⟨Real.cos, Real.sin, Real.sqrt, Real.pi⟩ (fun _ => 1 / 2) 800 600) :=
    List.mem_cons_self _ _
  ⟨hmem,
    match (drawing_depths_after_frames _ (fun _ => 1 / 2) 800 600 (fun _ _ => 1 / 2)
      (fun _ => (800, 600)) 1 0 _ hmem).2.2 with
    | ⟨strokes, hok, hdepths, _⟩ => ⟨strokes, hok, hdepths⟩⟩

end Drawing

section Machine
variable {K : Type} [LinearOrderedField K] [FloorRing K]

/-- Filtering out an element that is absent changes nothing. -/
theorem filter_ne_of_not_mem {l : List Nat} {e : Nat} (h : e ∉ l) :
    l.filter (· ≠ e) = l := by
  rw [List.filter_eq_self]
  intro a ha
  simp only [ne_eq, decide_eq_true_eq]
  rintro rfl
  exact h ha

theorem removeCanvas_eq (s : State K) :
    removeCanvas s
      = { s with
          body := match s.canvas with
            | some c => s.body.filter (· ≠ c.id)
            | none => s.body } := by
  obtain ⟨idle, cv, ctx, act, aid, st, lg, hd, bd, tm, fr, fresh⟩ := s
  cases cv with
  | none => rfl
  | some c =>
    simp only [removeCanvas]
    split_ifs with h
    · rfl
    · rw [filter_ne_of_not_mem h]

theorem removeStyle_eq (s : State K) :
    removeStyle s
      = { s with
          head := match s.styleElement with
            | some e => s.head.filter (· ≠ e)
            | none => s.head } := by
  obtain ⟨idle, cv, ctx, act, aid, st, lg, hd, bd, tm, fr, fresh⟩ := s
  cases st with
  | none => rfl
  | some e =>
    simp only [removeStyle]
    split_ifs with h
    · rfl
    · rw [filter_ne_of_not_mem h]

theorem cancelFrame_eq (s : State K) :
    cancelFrame s
      = { s with
          frames := match s.animationId with
            | some h => s.frames.filter (· ≠ h)
            | none => s.frames } := by
  obtain ⟨idle, cv, ctx, act, aid, st, lg, hd, bd, tm, fr, fresh⟩ := s
  cases aid <;> rfl

theorem stopScreensaver_eq (s : State K) :
    stopScreensaver s
      = { s with
          isScreensaverActive := false
          frames := match s.animationId with
            | some h => s.frames.filter (· ≠ h)
            | none => s.frames
          head := match s.styleElement with
            | some e => s.head.filter (· ≠ e)
            | none => s.head
          body := match s.canvas with
            | some c => s.body.filter (· ≠ c.id)
            | none => s.body } := by
  rw [stopScreensaver, removeCanvas_eq, removeStyle_eq, cancelFrame_eq]

theorem stopScreensaver_idem (s : State K) :
    stopScreensaver (stopScreensaver s) = stopScreensaver s := by
  rw [stopScreensaver_eq (stopScreensaver s), stopScreensaver_eq s]
  obtain ⟨idle, cv, ctx, act, aid, st, lg, hd, bd, tm, fr, fresh⟩ := s
  cases aid <;> cases st <;> cases cv <;> simp [List.filter_filter]

theorem clearIdleTimer_eq (s : State K) :
    clearIdleTimer s
      = { s with
          timers := match s.idleTimer with
            | some h => s.timers.filter (fun t => t.1 ≠ h)
            | none => s.timers } := by
  obtain ⟨idle, cv, ctx, act, aid, st, lg, hd, bd, tm, fr, fresh⟩ := s
  cases idle <;> rfl

/-- `resetTimer` as one update of the state. -/
theorem resetTimer_eq (s : State K) :
    resetTimer s
      = { (if s.isScreensaverActive then stopScreensaver s else s) with
          idleTimer := some s.fresh
          timers := (match s.idleTimer with
            | some h => s.timers.filter (fun t => t.1 ≠ h)
            | none => s.timers) ++ [(s.fresh, IDLE_TIME_LIMIT)]
          fresh := s.fresh + 1 } := by
  rw [resetTimer, clearIdleTimer_eq, setIdleTimer]
  split_ifs <;> simp only [stopScreensaver_eq]

/-- What `resetTimer` leaves alone, and the flag after it. -/
theorem resetTimer_fields (s : State K) :
    (resetTimer s).isScreensaverActive = false ∧
    (resetTimer s).styleElement = s.styleElement ∧
    (resetTimer s).canvas = s.canvas ∧
    (resetTimer s).ctx = s.ctx ∧
    (resetTimer s).animationId = s.animationId ∧
    (resetTimer s).lineGroups = s.lineGroups := by
  rw [resetTimer_eq]
  by_cases h : s.isScreensaverActive = true
  · simp only [h, if_true, stopScreensaver_eq]
    exact ⟨trivial, trivial, trivial, trivial, trivial, trivial⟩
  · simp only [h]
    refine ⟨?_, rfl, rfl, rfl, rfl, rfl⟩
    simpa using h

/-- What `handleResize` leaves alone. -/
theorem handleResize_fields (vw vh : Nat) (s : State K) :
    (handleResize vw vh s).isScreensaverActive = s.isScreensaverActive ∧
    (handleResize vw vh s).styleElement = s.styleElement ∧
    (handleResize vw vh s).ctx = s.ctx ∧
    (handleResize vw vh s).animationId = s.animationId ∧
    (handleResize vw vh s).lineGroups = s.lineGroups ∧
    (handleResize vw vh s).idleTimer = s.idleTimer ∧
    (handleResize vw vh s).timers = s.timers ∧
    (handleResize vw vh s).frames = s.frames ∧
    (handleResize vw vh s).head = s.head ∧
    (handleResize vw vh s).body = s.body ∧
    (handleResize vw vh s).fresh = s.fresh ∧
    (handleResize vw vh s).canvas.map Canvas.id = s.canvas.map Canvas.id := by
  obtain ⟨idle, cv, ctx, act, aid, st, lg, hd, bd, tm, fr, fresh⟩ := s
  cases act <;> cases cv <;> simp [handleResize]

/-- `animate` does nothing while the screensaver is inactive. -/
theorem animate_inactive (M : MathHost K) (rnd : Nat → K) (now : Nat) {s : State K}
    (h : s.isScreensaverActive = false) : animate M rnd now s = .ok s := by
  simp only [animate, h]
  rfl

/-- `animate` on an active state with a canvas, a context and uniform groups:
the frame succeeds, the groups are updated and one frame is requested. -/
theorem animate_active (M : MathHost K) (rnd : Nat → K) (now : Nat) {s : State K}
    {c : Canvas} {x : Nat} (h : s.isScreensaverActive = true) (hc : s.canvas = some c)
    (hx : s.ctx = some x) (hg : ∀ g ∈ s.lineGroups, ∃ L, L ≤ ribbonWidth ∧ Uniform L g) :
    animate M rnd now s
      = .ok { s with
          lineGroups := updateGroups M rnd c.width c.height 0 s.lineGroups
          animationId := some s.fresh
          frames := s.frames ++ [s.fresh]
          fresh := s.fresh + 1 } := by
  have hu : ∀ g ∈ updateGroups M rnd c.width c.height 0 s.lineGroups, ∃ L, Uniform L g := by
    refine updateGroups_forall (P := fun g => ∃ L, L ≤ ribbonWidth ∧ Uniform L g) ?_ hg
    rintro g k ⟨L, hL, hU⟩
    exact ⟨_, updateGroup_uniform M rnd c.width c.height k hU hL⟩
  obtain ⟨out, hout⟩ := renderGroups_uniform hu now
  simp only [animate, h, hc, hx, hout]
  rfl

/-- The groups stay uniform, with trails no longer than `ribbonWidth`, through
one frame. -/
theorem updateGroups_ready (M : MathHost K) (rnd : Nat → K) (cw ch : Nat)
    {gs : List (Group K)} (hg : ∀ g ∈ gs, ∃ L, L ≤ ribbonWidth ∧ Uniform L g) :
    ∀ g ∈ updateGroups M rnd cw ch 0 gs, ∃ L, L ≤ ribbonWidth ∧ Uniform L g := by
  refine updateGroups_forall (P := fun g => ∃ L, L ≤ ribbonWidth ∧ Uniform L g) ?_ hg
  rintro g k ⟨L, hL, hU⟩
  exact ⟨_, min_le_right _ _, updateGroup_uniform M rnd cw ch k hU hL⟩

/-- `startScreensaver` succeeds in every state, and its effect as one update
of the state. -/
theorem startScreensaver_eq (M : MathHost K) (rndInit rndFrame : Nat → K) (now vw vh : Nat)
    (s : State K) :
    startScreensaver M rndInit rndFrame now vw vh s
      = .ok { s with
          isScreensaverActive := true
          styleElement := some s.fresh
          head := s.head ++ [s.fresh]
          canvas := some { id := s.fresh + 1, width := vw, height := vh }
          body := s.body ++ [s.fresh + 1]
          ctx := some (s.fresh + 1)
          lineGroups := updateGroups M rndFrame vw vh 0 (initLineGroups M rndInit vw vh)
          animationId := some (s.fresh + 2)
          frames := s.frames ++ [s.fresh + 2]
          fresh := s.fresh + 3 } := by
  rw [startScreensaver, animate_active M rndFrame now (c := ⟨s.fresh + 1, vw, vh⟩)
    (x := s.fresh + 1) rfl rfl rfl]
  intro g hg
  exact ⟨0, Nat.zero_le _, initLineGroups_uniform M rndInit vw vh g hg⟩

theorem ready_initial : Ready (initial : State K) :=
  ⟨fun _ => ⟨rfl, rfl⟩, fun h => absurd rfl h, fun h => (by cases h),
    fun g hg => (by cases hg)⟩

theorem ready_resetTimer {s : State K} (h : Ready s) : Ready (resetTimer s) := by
  obtain ⟨hact, hst, hcv, hctx, -, hlg⟩ := resetTimer_fields s
  obtain ⟨h1, h2, -, h4⟩ := h
  refine ⟨?_, ?_, ?_, ?_⟩
  · intro hs
    rw [hst] at hs
    rw [hlg]
    exact ⟨hact, (h1 hs).2⟩
  · intro hs
    rw [hst] at hs
    rw [hlg]
    exact h2 hs
  · intro ha
    rw [hact] at ha
    cases ha
  · rw [hlg]
    exact h4

theorem ready_handleResize (vw vh : Nat) {s : State K} (h : Ready s) :
    Ready (handleResize vw vh s) := by
  obtain ⟨hact, hst, hctx, -, hlg, -, -, -, -, -, -, hcv⟩ := handleResize_fields vw vh s
  obtain ⟨h1, h2, h3, h4⟩ := h
  refine ⟨?_, ?_, ?_, ?_⟩
  · intro hs
    rw [hst] at hs
    rw [hlg, hact]
    exact h1 hs
  · intro hs
    rw [hst] at hs
    rw [hlg]
    exact h2 hs
  · intro ha
    rw [hact] at ha
    rw [hctx]
    refine ⟨?_, (h3 ha).2⟩
    intro hnone
    rw [hnone] at hcv
    have hne := (h3 ha).1
    cases hc : s.canvas with
    | none => exact hne hc
    | some c =>
      rw [hc] at hcv
      cases hcv
  · rw [hlg]
    exact h4

/-- In a ready state `animate` succeeds and leaves a ready state. -/
theorem ready_animate (M : MathHost K) (rnd : Nat → K) (now : Nat) {s : State K}
    (h : Ready s) : ∃ s', animate M rnd now s = .ok s' ∧ Ready s' := by
  by_cases ha : s.isScreensaverActive = true
  · obtain ⟨h1, h2, h3, h4⟩ := h
    obtain ⟨hc, hx⟩ := h3 ha
    obtain ⟨c, hc'⟩ := Option.ne_none_iff_exists'.mp hc
    obtain ⟨x, hx'⟩ := Option.ne_none_iff_exists'.mp hx
    refine ⟨_, animate_active M rnd now ha hc' hx' h4, ?_, ?_, ?_, ?_⟩
    · intro hs
      exact absurd ha (by rw [(h1 hs).1]; exact Bool.false_ne_true)
    · intro hs
      simp only [updateGroups_length]
      exact h2 hs
    · intro _
      exact ⟨hc, hx⟩
    · exact updateGroups_ready M rnd c.width c.height h4
  · have ha' : s.isScreensaverActive = false := by simpa using ha
    exact ⟨s, animate_inactive M rnd now ha', h⟩

/-- `startScreensaver` leaves a ready state. -/
theorem ready_startScreensaver (M : MathHost K) (rndInit rndFrame : Nat → K)
    (now vw vh : Nat) (s : State K) :
    ∃ s', startScreensaver M rndInit rndFrame now vw vh s = .ok s' ∧ Ready s' := by
  refine ⟨_, startScreensaver_eq M rndInit rndFrame now vw vh s, ?_, ?_, ?_, ?_⟩
  · intro hs
    cases hs
  · intro _
    simp only [updateGroups_length, initLineGroups_length]
  · intro _
    exact ⟨fun h => (by cases h), fun h => (by cases h)⟩
  · exact updateGroups_ready M rndFrame vw vh
      (fun g hg => ⟨0, Nat.zero_le _, initLineGroups_uniform M rndInit vw vh g hg⟩)

/-- In a ready state every listener runs without an exception and leaves a
ready state. -/
theorem ready_fire (M : MathHost K) (e : Event K) {s : State K} (h : Ready s) :
    ∃ s', fire M e s = .ok s' ∧ Ready s' := by
  cases e with
  | activity => exact ⟨_, rfl, ready_resetTimer h⟩
  | timeout t rndInit rndFrame now vw vh =>
    exact ready_startScreensaver M rndInit rndFrame now vw vh _
  | resize vw vh => exact ⟨_, rfl, ready_handleResize vw vh h⟩
  | frame t rnd now =>
    exact ready_animate M rnd now (s := { s with frames := s.frames.filter (· ≠ t) }) h

theorem called_ready {M : MathHost K} {s : State K} (h : Called M s) : Ready s := by
  induction h with
  | initial => exact ready_initial
  | step e _ hfire ih =>
    obtain ⟨s'', hs'', hr⟩ := ready_fire M e ih
    rw [hs''] at hfire
    cases hfire
    exact hr

theorem reachable_called {M : MathHost K} {s : State K} (h : Reachable M s) : Called M s := by
  induction h with
  | initial => exact Called.initial
  | step e _ _ hfire ih => exact Called.step e ih hfire

theorem settled_initial : Settled (initial : State K) :=
  ⟨Or.inl rfl, fun _ => ⟨rfl, rfl, rfl⟩, fun h => (by cases h)⟩

/-- After `resetTimer` on a settled state: the screensaver is inactive, the
document holds nothing of the script, no frame is requested and exactly one
timeout is pending, the new one, with the delay `IDLE_TIME_LIMIT`. -/
theorem resetTimer_settled {s : State K} (h : Settled s) :
    (resetTimer s).isScreensaverActive = false ∧
    (resetTimer s).head = [] ∧ (resetTimer s).body = [] ∧ (resetTimer s).frames = [] ∧
    (resetTimer s).idleTimer = some s.fresh ∧
    (resetTimer s).timers = [(s.fresh, IDLE_TIME_LIMIT)] := by
  obtain ⟨h1, h2, h3⟩ := h
  have htimers : (match s.idleTimer with
      | some h => s.timers.filter (fun t => t.1 ≠ h)
      | none => s.timers) = [] := by
    rcases h1 with h1 | ⟨t, ht, h1⟩
    · rw [h1]
      cases s.idleTimer <;> rfl
    · rw [ht, h1]
      simp
  rw [resetTimer_eq]
  by_cases ha : s.isScreensaverActive = true
  · obtain ⟨e, c, a, hst, hhead, hcv, hbody, haid, hfr⟩ := h3 ha
    simp only [ha, if_true, stopScreensaver_eq, htimers, hst, hhead, hcv, hbody, haid, hfr]
    simp
  · have ha' : s.isScreensaverActive = false := by simpa using ha
    obtain ⟨hhead, hbody, hfr⟩ := h2 ha'
    simp only [ha', Bool.false_eq_true, if_false, htimers, List.nil_append]
    exact ⟨trivial, hhead, hbody, hfr, trivial, trivial⟩

theorem tidy_resetTimer {s : State K} (h : Settled s) : Tidy (resetTimer s) := by
  obtain ⟨hact, hhead, hbody, hfr, hidle, htm⟩ := resetTimer_settled h
  refine ⟨⟨Or.inr ⟨_, hidle, htm⟩, fun _ => ⟨hhead, hbody, hfr⟩, fun ha => ?_⟩, fun ha => ?_⟩
  · rw [hact] at ha
    cases ha
  · rw [hact] at ha
    cases ha

theorem tidy_handleResize (vw vh : Nat) {s : State K} (h : Tidy s) :
    Tidy (handleResize vw vh s) := by
  obtain ⟨hact, hst, hctx, haid, hlg, hidle, htm, hfr, hhead, hbody, -, hcv⟩ :=
    handleResize_fields vw vh s
  obtain ⟨⟨h1, h2, h3⟩, h4⟩ := h
  refine ⟨⟨?_, ?_, ?_⟩, ?_⟩
  · rw [htm, hidle]
    exact h1
  · rw [hact, hhead, hbody, hfr]
    exact h2
  · rw [hact, hst, hhead, hbody, haid, hfr]
    intro ha
    obtain ⟨e, c, a, hst', hhead', hcv', hbody', haid', hfr'⟩ := h3 ha
    rw [hcv'] at hcv
    cases hc : (handleResize vw vh s).canvas with
    | none =>
      rw [hc] at hcv
      cases hcv
    | some c' =>
      rw [hc] at hcv
      simp only [Option.map_some', Option.some.injEq] at hcv
      exact ⟨e, c', a, hst', hhead', rfl, by rw [hcv]; exact hbody', haid', hfr'⟩
  · rw [hact, htm]
    exact h4

/-- The shape of the pending timeouts is kept when one handle is served. -/
theorem timers_filter_shape {s : State K} (t : Nat)
    (h : s.timers = [] ∨ ∃ h, s.idleTimer = some h ∧ s.timers = [(h, IDLE_TIME_LIMIT)]) :
    s.timers.filter (fun x => x.1 ≠ t) = [] ∨
      ∃ h, s.idleTimer = some h ∧ s.timers.filter (fun x => x.1 ≠ t) = [(h, IDLE_TIME_LIMIT)] := by
  rcases h with h | ⟨h', hidle, h⟩
  · left
    rw [h]
    rfl
  · rw [h]
    by_cases e : h' = t
    · left
      simp [e]
    · right
      exact ⟨h', hidle, by simp [e]⟩

/-- `startScreensaver` served from an inactive settled state: the state it
yields is settled and active. -/
theorem settled_timeout (M : MathHost K) (t : Nat) (rndInit rndFrame : Nat → K)
    (now vw vh : Nat) {s : State K} (h : Settled s) (ha : s.isScreensaverActive = false) :
    ∃ s', fire M (.timeout t rndInit rndFrame now vw vh) s = .ok s' ∧ Settled s' ∧
      s'.isScreensaverActive = true ∧
      s'.canvas = some { id := s.fresh + 1, width := vw, height := vh } ∧
      s'.timers = s.timers.filter (fun x => x.1 ≠ t) := by
  obtain ⟨h1, h2, -⟩ := h
  obtain ⟨hhead, hbody, hfr⟩ := h2 ha
  refine ⟨_, startScreensaver_eq M rndInit rndFrame now vw vh _, ⟨?_, ?_, ?_⟩, rfl, rfl, rfl⟩
  · exact timers_filter_shape t h1
  · intro h
    cases h
  · intro _
    exact ⟨s.fresh, _, s.fresh + 2, rfl, by simp [hhead], rfl, by simp [hbody], rfl,
      by simp [hfr]⟩

/-- A frame served in a tidy state leaves a tidy state. -/
theorem tidy_frame (M : MathHost K) (t : Nat) (rnd : Nat → K) (now : Nat) {s s' : State K}
    (hr : Ready s) (h : Tidy s) (ht : t ∈ s.frames)
    (hfire : fire M (.frame t rnd now) s = .ok s') : Tidy s' := by
  obtain ⟨⟨h1, h2, h3⟩, h4⟩ := h
  have ha : s.isScreensaverActive = true := by
    by_contra hna
    have hna' : s.isScreensaverActive = false := by simpa using hna
    rw [(h2 hna').2.2] at ht
    cases ht
  obtain ⟨e, c, a, hst, hhead, hcv, hbody, haid, hfr⟩ := h3 ha
  obtain ⟨x, hx⟩ := Option.ne_none_iff_exists'.mp (hr.2.2.1 ha).2
  have hta : t = a := by
    rw [hfr] at ht
    simpa using ht
  have hfire' := animate_active M rnd now (s := { s with frames := s.frames.filter (· ≠ t) })
    ha hcv hx hr.2.2.2
  simp only [fire] at hfire
  rw [hfire'] at hfire
  cases hfire
  refine ⟨⟨h1, ?_, ?_⟩, h4⟩
  · intro hna
    rw [ha] at hna
    cases hna
  · intro _
    exact ⟨e, c, s.fresh, hst, hhead, hcv, hbody, rfl, by simp [hfr, hta]⟩

/-- Every event the browser can deliver keeps the state tidy. -/
theorem tidy_fire (M : MathHost K) (e : Event K) {s s' : State K} (hr : Ready s)
    (h : Tidy s) (he : enabled e s = true) (hfire : fire M e s = .ok s') : Tidy s' := by
  cases e with
  | activity =>
    cases hfire
    exact tidy_resetTimer h.1
  | timeout t rndInit rndFrame now vw vh =>
    have hne : s.timers ≠ [] := by
      intro hnil
      simp [enabled, hnil] at he
    have ha : s.isScreensaverActive = false := by
      by_contra hact
      exact hne (h.2 (by simpa using hact))
    obtain ⟨s'', hs'', hset, hact, -, htm⟩ :=
      settled_timeout M t rndInit rndFrame now vw vh h.1 ha
    rw [hs''] at hfire
    cases hfire
    refine ⟨hset, fun _ => ?_⟩
    rw [htm]
    rcases h.1.1 with h0 | ⟨h', -, h0⟩
    · exact absurd h0 hne
    · simp only [enabled, h0, List.map_cons, List.map_nil, List.mem_singleton,
        decide_eq_true_eq] at he
      rw [h0]
      simp [he]
  | resize vw vh =>
    cases hfire
    exact tidy_handleResize vw vh h
  | frame t rnd now =>
    exact tidy_frame M t rnd now hr h (by simpa [enabled] using he) hfire

theorem reachable_tidy {M : MathHost K} {s : State K} (h : Reachable M s) : Tidy s := by
  induction h with
  | initial => exact ⟨settled_initial, fun h => (by cases h)⟩
  | step e hs he hfire ih => exact tidy_fire M e (called_ready (reachable_called hs)) ih he hfire

/-- C5: from any inactive state the browser can reach, `startScreensaver`
(served for the timeout `t`, pending or not) succeeds and yields
`isScreensaverActive = true`, the canvas of the viewport size in
`document.body`, the style element in `document.head` and one frame
requested; the activity event that follows (`resetTimer`) yields
`isScreensaverActive = false`, the style element and the canvas out of the
document, which then holds nothing of the script, no frame request pending,
and exactly one pending timeout, the one `idleTimer` names, with the full
delay `IDLE_TIME_LIMIT = 300000` ms. -/
theorem activation_then_activity_round_trip (M : MathHost K) (s : State K)
    (hs : Reachable M s) (ha : s.isScreensaverActive = false) (t : Nat)
    (rndInit rndFrame : Nat → K) (now vw vh : Nat) :
    ∃ s1 s2 : State K,
      fire M (.timeout t rndInit rndFrame now vw vh) s = .ok s1 ∧
      s1.isScreensaverActive = true ∧
      (∃ c, s1.canvas = some c ∧ c.id ∈ s1.body ∧ c.width = vw ∧ c.height = vh) ∧
      (∃ e, s1.styleElement = some e ∧ e ∈ s1.head) ∧
      (∃ a, s1.animationId = some a ∧ a ∈ s1.frames) ∧
      fire M .activity s1 = .ok s2 ∧
      s2.isScreensaverActive = false ∧
      (∀ c, s2.canvas = some c → c.id ∉ s2.body) ∧
      (∀ e, s2.styleElement = some e → e ∉ s2.head) ∧
      s2.head = [] ∧ s2.body = [] ∧ s2.frames = [] ∧
      (∃ h, s2.idleTimer = some h ∧ s2.timers = [(h, IDLE_TIME_LIMIT)]) ∧
      IDLE_TIME_LIMIT = 300000 := by
  obtain ⟨s1, hs1, hset, hact, hcv, -⟩ :=
    settled_timeout M t rndInit rndFrame now vw vh (reachable_tidy hs).1 ha
  obtain ⟨e, c, a, hst, hhead, hcv', hbody, haid, hfr⟩ := hset.2.2 hact
  obtain ⟨h2act, h2head, h2body, h2fr, h2idle, h2tm⟩ := resetTimer_settled hset
  refine ⟨s1, resetTimer s1, hs1, hact, ⟨c, hcv', ?_, ?_, ?_⟩, ⟨e, hst, ?_⟩, ⟨a, haid, ?_⟩, rfl,
    h2act, ?_, ?_, h2head, h2body, h2fr, ⟨_, h2idle, h2tm⟩, rfl⟩
  · rw [hbody]
    exact List.mem_singleton_self _
  · rw [hcv] at hcv'
    cases hcv'
    rfl
  · rw [hcv] at hcv'
    cases hcv'
    rfl
  · rw [hhead]
    exact List.mem_singleton_self _
  · rw [hfr]
    exact List.mem_singleton_self _
  · intro c' _
    rw [h2body]
    exact List.not_mem_nil _
  · intro e' _
    rw [h2head]
    exact List.not_mem_nil _

/-- Witness of C5: the state after `init`, real host, an 800 by 600
viewport. -/
theorem activation_then_activity_round_trip_witness :
    (Reachable (⟨Real.cos, Real.sin, Real.sqrt, Real.pi⟩ : MathHost ℝ) (init initial) ∧
      (init (initial : State ℝ)).isScreensaverActive = false) ∧
    ∃ s1 s2 : State ℝ,
      fire (⟨Real.cos, Real.sin, Real.sqrt, Real.pi⟩ : MathHost ℝ)
        (.timeout 0 (fun _ => 1 / 2) (fun _ => 1 / 2) 0 800 600) (init initial) = .ok s1 ∧
      s1.isScreensaverActive = true ∧
      fire (⟨Real.cos, Real.sin, Real.sqrt, Real.pi⟩ : MathHost ℝ) .activity s1 = .ok s2 ∧
      s2.isScreensaverActive = false ∧ s2.head = [] ∧ s2.body = [] ∧ s2.frames = [] ∧
      ∃ h, s2.idleTimer = some h ∧ s2.timers = [(h, 300000)] :=
  have hr : Reachable (⟨Real.cos, Real.sin, Real.sqrt, Real.pi⟩ : MathHost ℝ) (init initial) :=
    Reachable.step .activity Reachable.initial rfl rfl
  have ha : (init (initial : State ℝ)).isScreensaverActive = false := rfl
  ⟨⟨hr, ha⟩,
    match activation_then_activity_round_trip _ _ hr ha 0 (fun _ => 1 / 2) (fun _ => 1 / 2)
      0 800 600 with
    | ⟨s1, s2, h1, h2, _, _, _, h3, h4, _, _, h5, h6, h7, h8, _⟩ =>
      ⟨s1, s2, h1, h2, h3, h4, h5, h6, h7, h8⟩⟩

/-- C6: `stopScreensaver` is total (every read of `styleElement` and `canvas`
is guarded, so no exception can be raised) and, in every state, the state
with undefined variables included: it leaves `isScreensaverActive = false`,
the style element of the script out of `document.head` and its canvas out of
`document.body`; a second call changes nothing more; in the initial state it
changes nothing at all; and from every state the browser can reach it leaves
nothing of the script in the document. -/
theorem stopScreensaver_safe_and_idempotent (M : MathHost K) (s : State K) :
    (stopScreensaver s).isScreensaverActive = false ∧
    (∀ e, (stopScreensaver s).styleElement = some e → e ∉ (stopScreensaver s).head) ∧
    (∀ c, (stopScreensaver s).canvas = some c → c.id ∉ (stopScreensaver s).body) ∧
    stopScreensaver (stopScreensaver s) = stopScreensaver s ∧
    stopScreensaver (initial : State K) = initial ∧
    (Reachable M s → (stopScreensaver s).head = [] ∧ (stopScreensaver s).body = []) := by
  refine ⟨by rw [stopScreensaver_eq], ?_, ?_, stopScreensaver_idem s, rfl, ?_⟩
  · intro e he
    rw [stopScreensaver_eq] at he ⊢
    simp only at he ⊢
    rw [he]
    simp [List.mem_filter]
  · intro c hc
    rw [stopScreensaver_eq] at hc ⊢
    simp only at hc ⊢
    rw [hc]
    simp [List.mem_filter]
  · intro hs
    obtain ⟨⟨-, h2, h3⟩, -⟩ := reachable_tidy hs
    rw [stopScreensaver_eq]
    by_cases ha : s.isScreensaverActive = true
    · obtain ⟨e, c, a, hst, hhead, hcv, hbody, -, -⟩ := h3 ha
      simp [hst, hhead, hcv, hbody]
    · obtain ⟨hhead, hbody, -⟩ := h2 (by simpa using ha)
      simp only [hhead, hbody]
      constructor
      · cases s.styleElement <;> rfl
      · cases s.canvas <;> rfl

/-- C7 as stated fails: after activity, the timeout and activity again the
screensaver is inactive and `lineGroups` still holds the three groups of the
activation, `stopScreensaver` leaving the list alone. -/
theorem lineGroups_kept_after_deactivation :
    ∃ s : State ℝ,
      runEvents (⟨Real.cos, Real.sin, Real.sqrt, Real.pi⟩ : MathHost ℝ)
        [.activity, .timeout 0 (fun _ => 1 / 2) (fun _ => 1 / 2) 0 800 600, .activity]
        initial = .ok s ∧
      Called (⟨Real.cos, Real.sin, Real.sqrt, Real.pi⟩ : MathHost ℝ) s ∧
      s.isScreensaverActive = false ∧ s.lineGroups.length = 3 := by
  obtain ⟨s1, hs1, hlen⟩ : ∃ s1 : State ℝ,
      fire (⟨Real.cos, Real.sin, Real.sqrt, Real.pi⟩ : MathHost ℝ)
        (.timeout 0 (fun _ => 1 / 2) (fun _ => 1 / 2) 0 800 600) (resetTimer initial) = .ok s1 ∧
      s1.lineGroups.length = 3 :=
    ⟨_, startScreensaver_eq _ _ _ _ _ _ _, by simp [groupCount]⟩
  refine ⟨resetTimer s1, ?_, ?_, (resetTimer_fields s1).1, ?_⟩
  · have h0 : fire (⟨Real.cos, Real.sin, Real.sqrt, Real.pi⟩ : MathHost ℝ) .activity
        (initial : State ℝ) = .ok (resetTimer initial) := rfl
    have h2 : fire (⟨Real.cos, Real.sin, Real.sqrt, Real.pi⟩ : MathHost ℝ) .activity s1
        = .ok (resetTimer s1) := rfl
    simp only [runEvents, h0, hs1, h2, bind, Except.bind, pure, Except.pure]
  · exact Called.step .activity
      (Called.step (.timeout 0 (fun _ => 1 / 2) (fun _ => 1 / 2) 0 800 600)
        (Called.step .activity Called.initial rfl) hs1) rfl
  · rw [(resetTimer_fields s1).2.2.2.2.2]
    exact hlen

/-- C7, amended: in every state reached from the initial state by any
sequence of calls of the four listeners, `lineGroups` holds exactly
`groupCount = 3` groups of `numPoints = 4` points whenever
`isScreensaverActive` is true; whenever it is false the list holds zero
groups as long as `startScreensaver` has never run (`styleElement` is still
undefined), and the three groups of the last activation afterwards; and no
listener raises an exception. -/
theorem lineGroups_count_in_called_states (M : MathHost K) (s : State K)
    (hs : Called M s) :
    (s.isScreensaverActive = true →
      s.lineGroups.length = groupCount ∧ ∀ g ∈ s.lineGroups, g.points.length = numPoints) ∧
    (s.isScreensaverActive = false →
      (s.styleElement = none → s.lineGroups.length = 0) ∧
      (s.styleElement ≠ none →
        s.lineGroups.length = groupCount ∧
        ∀ g ∈ s.lineGroups, g.points.length = numPoints)) ∧
    (∀ e : Event K, ∃ s', fire M e s = .ok s') ∧
    groupCount = 3 ∧ numPoints = 4 := by
  obtain ⟨h1, h2, -, h4⟩ := called_ready hs
  have hpts : ∀ g ∈ s.lineGroups, g.points.length = numPoints := by
    intro g hg
    obtain ⟨L, -, hU⟩ := h4 g hg
    exact hU.1
  refine ⟨?_, ?_, ?_, rfl, rfl⟩
  · intro ha
    have hst : s.styleElement ≠ none := by
      intro hnone
      rw [(h1 hnone).1] at ha
      cases ha
    exact ⟨h2 hst, hpts⟩
  · intro _
    refine ⟨fun hnone => ?_, fun hst => ⟨h2 hst, hpts⟩⟩
    rw [(h1 hnone).2]
    rfl
  · intro e
    obtain ⟨s', hs', -⟩ := ready_fire M e (called_ready hs)
    exact ⟨s', hs'⟩

/-- Witness of C7 amended: the state after `init`, real host. -/
theorem lineGroups_count_in_called_states_witness :
    Called (⟨Real.cos, Real.sin, Real.sqrt, Real.pi⟩ : MathHost ℝ) (init initial) ∧
    ((init (initial : State ℝ)).isScreensaverActive = false →
      ((init (initial : State ℝ)).styleElement = none →
        (init (initial : State ℝ)).lineGroups.length = 0) ∧
      ((init (initial : State ℝ)).styleElement ≠ none →
        (init (initial : State ℝ)).lineGroups.length = groupCount ∧
        ∀ g ∈ (init (initial : State ℝ)).lineGroups, g.points.length = numPoints)) :=
  have hc : Called (⟨Real.cos, Real.sin, Real.sqrt, Real.pi⟩ : MathHost ℝ) (init initial) :=
    Called.step .activity Called.initial rfl
  ⟨hc, (lineGroups_count_in_called_states _ _ hc).2.1⟩

/-- C8: `handleResize` changes only the size of the canvas.  When the
screensaver is active and the canvas exists, the state after it is the state
before it with `canvas.width` and `canvas.height` set to the new viewport
size, so that `isScreensaverActive`, the idle timer and the pending timeouts,
and every group, point, velocity, heading and trail are unchanged; when the
screensaver is inactive the state is unchanged. -/
theorem handleResize_changes_only_canvas_size (vw vh : Nat) (s : State K) :
    (s.isScreensaverActive = true → ∀ c, s.canvas = some c →
      handleResize vw vh s = { s with canvas := some { c with width := vw, height := vh } }) ∧
    (handleResize vw vh s).isScreensaverActive = s.isScreensaverActive ∧
    (handleResize vw vh s).idleTimer = s.idleTimer ∧
    (handleResize vw vh s).timers = s.timers ∧
    (handleResize vw vh s).lineGroups = s.lineGroups ∧
    (s.isScreensaverActive = false → handleResize vw vh s = s) := by
  obtain ⟨hact, -, -, -, hlg, hidle, htm, -⟩ := handleResize_fields vw vh s
  refine ⟨?_, hact, hidle, htm, hlg, ?_⟩
  · intro ha c hc
    simp only [handleResize, ha, hc, if_true]
  · intro ha
    simp only [handleResize, ha]
    rfl

end Machine

end WebScreenSaver
